import Mathlib

/-!
Verification of the d2ro save-file library (Diablo II Remastered save files).

This file gives a shallow embedding of the library's core:

* `SparseStruct.__new__` / `SparseStruct._fill_in` (constructed.py): the sparse
  layout builder that tiles a fixed-size record with declared fields plus
  synthesized `_unk_<offset>` filler fields, then asserts that the resulting
  struct's size equals the declared total size;
* the record codec: parsing a layout against a byte buffer and building the
  structured tree back into bytes (semantics of the `construct` structs the
  library instantiates: `Int32ul`, `Bytes`, `RawCopy`, `Struct`);
* `_build` / `_clean` (constructed.py): the tree transformations applied
  between the parsed container and the codec build step;
* `Constructed.__eq__` / `__hash__` / `raw` / `diff` (constructed.py);
* `Checksum._parse` / `_get_checksum` (adapters.py);
* `CTLOFile.save` (save_file.py) over an explicit file-system state;
* the shipped `CtloStruct` record kind (save_file.py): `size=900, align=4`,
  `Int32ul` fields at offsets 12, 60 and 180.

Modelling conventions:

* bytes are naturals (well-formed buffers have entries `< 256`);
* Python ints are `Int`; Python `%` and `//` agree with Lean's `Int`
  `%` and `/` whenever the divisor is positive, which holds at every
  division the library performs (alignments are positive);
* Python dicts are association lists with Python's update semantics
  (`dinsert`: replace in place when the key is present, append otherwise);
* field names are `FName`: `FName.named s` embeds a declared name and
  `FName.unk pos` embeds the synthesized f-string `_unk_{pos}` (the f-string
  is injective in `pos`, so the tagged form is faithful);
* a Python function raising is modelled by an `Option`/result type;
* `while` loops run on an explicit fuel that is provably sufficient for
  positive alignments (the only alignments the library uses).
-/

namespace D2ro

/-- Field names: declared attribute names, or the synthesized filler name
`_unk_<pos>` produced by `SparseStruct._fill_in`. -/
inductive FName where
  | named (s : String)
  | unk (pos : Int)
deriving DecidableEq, Repr

/-- The fixed-size sub-constructs the library instantiates: `Int32ul`,
`Bytes(n)` and `RawCopy(subcon)` from the `construct` package. -/
inductive SubCon where
  | int32ul
  | bytes (n : Int)
  | rawCopy (inner : SubCon)
deriving DecidableEq, Repr

/-- `subcon.sizeof()`: 4 for `Int32ul`, the stored length for `Bytes`
(`construct` returns it unchecked, negative lengths included), and the inner
size for `RawCopy`. -/
def SubCon.sizeofC : SubCon → Int
  | .int32ul => 4
  | .bytes n => n
  | .rawCopy inner => inner.sizeofC

/-- An ordered struct layout: what `Struct(*(k / v for k, v in d.items()))`
retains of the built dict. -/
abbrev Layout := List (FName × SubCon)

/-- Python dict assignment `d[k] = v`: replace the value in place when the key
exists, append the binding otherwise. -/
def dinsert {κ α : Type} [DecidableEq κ] (d : List (κ × α)) (k : κ) (v : α) : List (κ × α) :=
  if d.any (fun p => p.1 = k) then d.map (fun p => if p.1 = k then (k, v) else p) else d ++ [(k, v)]

/-- Python dict lookup `d[k]` (first binding; dicts never hold duplicates). -/
def dlookup {κ α : Type} [DecidableEq κ] (d : List (κ × α)) (k : κ) : Option α :=
  match d with
  | [] => none
  | (k', v) :: rest => if k' = k then some v else dlookup rest k

/-- `Struct.sizeof()`: the sum of the subcon sizes. -/
def layoutSize (d : Layout) : Int :=
  (d.map (fun p => p.2.sizeofC)).sum

/-- Shorthand for the synthesized filler name. -/
def unkN (pos : Int) : FName := .unk pos

/-- The `while pos < offset` loop of `SparseStruct._fill_in`, on explicit fuel:
each pass inserts `Bytes(align)` under `_unk_<pos>` and advances by `align`.
The fuel passed at the call site is sufficient whenever `0 < align` (the
library always uses `align = 4`). -/
def fillLoop (align : Int) : Nat → Layout → Int → Int → Layout × Int
  | 0, d, pos, _ => (d, pos)
  | fuel + 1, d, pos, offset =>
    if pos < offset then
      fillLoop align fuel (dinsert d (unkN pos) (.bytes align)) (pos + align) offset
    else (d, pos)

/-- `SparseStruct._fill_in(struct_dict, pos, offset)`: fill the byte range from
`pos` to `offset` with filler fields, returning the updated dict and cursor. -/
def fillIn (align : Int) (d : Layout) (pos offset : Int) : Layout × Int :=
  let fill := offset - pos
  if fill > align then
    let (d, pos) :=
      if fill % align ≠ 0 then
        let part := fill - fill / align * align
        (dinsert d (unkN pos) (.bytes part), pos + part)
      else (d, pos)
    fillLoop align (offset - pos).toNat d pos offset
  else
    (dinsert d (unkN pos) (.bytes fill), offset)

/-- Insertion into a list sorted by offset (first component). -/
def insertSorted (x : Int × FName × SubCon) :
    List (Int × FName × SubCon) → List (Int × FName × SubCon)
  | [] => [x]
  | y :: ys => if x.1 ≤ y.1 then x :: y :: ys else y :: insertSorted x ys

/-- `sorted(cls.fields.items())`: the declared fields in ascending offset order
(offsets are dict keys, hence distinct). -/
def sortFields (l : List (Int × FName × SubCon)) : List (Int × FName × SubCon) :=
  l.foldr insertSorted []

/-- The dict built by the body of `SparseStruct.__new__` before the size
assertion: walk the declared fields in offset order, filling every gap, then
fill the remainder up to `size` when the cursor falls short. -/
def sparseDict (size align : Int) (fields : List (Int × FName × SubCon)) : Layout :=
  let step := fun (acc : Layout × Int) (f : Int × FName × SubCon) =>
    let (offset, name, st) := f
    let (d, pos) := if acc.2 ≠ offset then fillIn align acc.1 acc.2 offset else acc
    (dinsert d name st, pos + st.sizeofC)
  let (d, pos) := (sortFields fields).foldl step ([], 0)
  if pos < size then (fillIn align d pos size).1 else d

/-- `SparseStruct.__new__`: build the layout dict, then
`assert struct.sizeof() == cls.size`; `none` models the `AssertionError`. -/
def sparseStructNew (size align : Int) (fields : List (Int × FName × SubCon)) : Option Layout :=
  let d := sparseDict size align fields
  if layoutSize d = size then some d else none

/-- The declared fields of `CtloStruct` (save_file.py): `Int32ul` at offsets
12, 60 and 180, in a record of `size=900, align=4`. -/
def ctloFields : List (Int × FName × SubCon) :=
  [(12, .named "changed_0", .int32ul), (60, .named "changed_1", .int32ul),
   (180, .named "changed_2", .int32ul)]

/-- The layout of the shipped CTLO record kind. -/
def ctloLayout : Layout := (sparseStructNew 900 4 ctloFields).getD []

/-! ## Structured value trees

Parsed values: scalars, byte arrays, the `_io` stream entry that `construct`
stores in every parsed `Struct` container, list containers and dict
containers. -/

inductive Value where
  | vint (n : Int)
  | vstr (s : String)
  | vbytes (bs : List Nat)
  | vio
  | vlist (l : List Value)
  | vdict (d : List (FName × Value))

/-- The key set of a parsed `RawCopy` container. -/
def rawCopyKeys : List FName :=
  [.named "offset1", .named "length", .named "offset2", .named "data", .named "value"]

/-- Python set equality `set(ks) == set(target)` on key lists. -/
def keyEqSet (ks target : List FName) : Bool :=
  ks.all (fun k => target.contains k) && target.all (fun k => ks.contains k)

mutual
/-- Module-level `_build` of constructed.py: recurse through list containers;
a dict whose key set is exactly the `RawCopy` key set is collapsed to
`{'value': _build(obj.value)}`; any other dict keeps every key except `_io`,
with `_build` applied to the values. (The source recurses before selecting
keys is interchanged here — `_build` is pure, so mapping the values first and
then selecting keys yields the same dict.) -/
def pybuild : Value → Value
  | .vint n => .vint n
  | .vstr s => .vstr s
  | .vbytes bs => .vbytes bs
  | .vio => .vio
  | .vlist l => .vlist (pybuildL l)
  | .vdict d =>
      let d' := pybuildD d
      if keyEqSet (d.map Prod.fst) rawCopyKeys then
        .vdict [(.named "value", (dlookup d' (.named "value")).getD .vio)]
      else
        .vdict (d'.filter (fun p => p.1 ≠ .named "_io"))

/-- `_build` mapped over a list container's elements. -/
def pybuildL : List Value → List Value
  | [] => []
  | v :: vs => pybuild v :: pybuildL vs

/-- `_build` mapped over a dict container's values. -/
def pybuildD : List (FName × Value) → List (FName × Value)
  | [] => []
  | (k, v) :: ps => (k, pybuild v) :: pybuildD ps
end

mutual
/-- Module-level `_clean` of constructed.py: like `_build`, but a `RawCopy`
dict is collapsed to the cleaned value itself, and dicts drop both `_io` and
`_flagsenum`. -/
def pyclean : Value → Value
  | .vint n => .vint n
  | .vstr s => .vstr s
  | .vbytes bs => .vbytes bs
  | .vio => .vio
  | .vlist l => .vlist (pycleanL l)
  | .vdict d =>
      let d' := pycleanD d
      if keyEqSet (d.map Prod.fst) rawCopyKeys then
        (dlookup d' (.named "value")).getD .vio
      else
        .vdict (d'.filter (fun p => p.1 ≠ .named "_io" ∧ p.1 ≠ .named "_flagsenum"))

/-- `_clean` mapped over a list container's elements. -/
def pycleanL : List Value → List Value
  | [] => []
  | v :: vs => pyclean v :: pycleanL vs

/-- `_clean` mapped over a dict container's values. -/
def pycleanD : List (FName × Value) → List (FName × Value)
  | [] => []
  | (k, v) :: ps => (k, pyclean v) :: pycleanD ps
end

/-! ## The record codec

Semantics of `construct` parsing and building for the sub-constructs the
library instantiates. A stream is the full buffer plus a cursor. -/

/-- Little-endian value of a byte list (`struct.unpack` on the read bytes). -/
def leVal (bs : List Nat) : Nat :=
  bs.foldr (fun b acc => b + 256 * acc) 0

/-- The four little-endian bytes of `n` (`struct.pack('<L', n)`). -/
def leBytes4 (n : Nat) : List Nat :=
  [n % 256, n / 256 % 256, n / 65536 % 256, n / 16777216 % 256]

/-- `subcon._parse(stream, ...)` at cursor `pos` of `data`: the parsed value
and the new cursor, or `none` when `construct` raises (`stream_read` demands
the exact requested count; a negative `Bytes` length always fails it). -/
def SubCon.parse : SubCon → List Nat → Nat → Option (Value × Nat)
  | .int32ul, data, pos =>
      if pos + 4 ≤ data.length then
        some (.vint (leVal ((data.drop pos).take 4)), pos + 4)
      else none
  | .bytes n, data, pos =>
      if 0 ≤ n ∧ pos + n.toNat ≤ data.length then
        some (.vbytes ((data.drop pos).take n.toNat), pos + n.toNat)
      else none
  | .rawCopy inner, data, pos =>
      match inner.parse data pos with
      | some (v, pos2) =>
          some (.vdict [(.named "data", .vbytes ((data.drop pos).take (pos2 - pos))),
                        (.named "value", v),
                        (.named "offset1", .vint pos),
                        (.named "offset2", .vint pos2),
                        (.named "length", .vint (pos2 - pos))], pos2)
      | none => none

/-- `subcon._build(obj, stream, ...)`: the bytes written, or `none` when
`construct` raises. `Int32ul` packs an int in `[0, 2^32)`; `Bytes` writes a
byte string of exactly the declared length (an int is replicated, as in
`construct`); `RawCopy` writes the `data` entry when present and otherwise
builds the `value` entry. -/
def SubCon.build : SubCon → Value → Option (List Nat)
  | .int32ul, .vint n =>
      if 0 ≤ n ∧ n < 4294967296 then some (leBytes4 n.toNat) else none
  | .int32ul, _ => none
  | .bytes k, .vbytes bs => if (bs.length : Int) = k then some bs else none
  | .bytes k, .vint n =>
      if 0 ≤ n ∧ n < 256 ∧ 0 ≤ k then some (List.replicate k.toNat n.toNat) else none
  | .bytes _, _ => none
  | .rawCopy inner, .vdict d =>
      if (d.map Prod.fst).contains (.named "data") then
        match dlookup d (.named "data") with
        | some (.vbytes bs) => some bs
        | _ => none
      else if (d.map Prod.fst).contains (.named "value") then
        match dlookup d (.named "value") with
        | some v => inner.build v
        | none => none
      else none
  | .rawCopy _, _ => none

/-- `Struct._parse`: parse each named subcon in order, threading the cursor. -/
def structParseAux : Layout → List Nat → Nat → Option (List (FName × Value) × Nat)
  | [], _, pos => some ([], pos)
  | (name, sc) :: rest, data, pos =>
    match sc.parse data pos with
    | some (v, pos2) =>
        match structParseAux rest data pos2 with
        | some (t, p) => some ((name, v) :: t, p)
        | none => none
    | none => none

/-- `Struct.parse(data)`: parse from cursor 0; the returned container holds
the `_io` stream entry first, then one entry per subcon. (`construct` does
not require the buffer to be fully consumed.) -/
def structParse (L : Layout) (data : List Nat) : Option (List (FName × Value)) :=
  match structParseAux L data 0 with
  | some (t, _) => some ((.named "_io", .vio) :: t)
  | none => none

/-- `Struct._build(obj, ...)`: look each subcon's name up in the supplied dict
(a missing key raises) and concatenate the built bytes in layout order. -/
def structBuild : Layout → List (FName × Value) → Option (List Nat)
  | [], _ => some []
  | (name, sc) :: rest, obj =>
    match dlookup obj name with
    | some v =>
        match sc.build v with
        | some bs =>
            match structBuild rest obj with
            | some tl => some (bs ++ tl)
            | none => none
        | none => none
    | none => none

/-- `Struct.build(obj)`: `obj` must be dict-like (anything else raises). -/
def structBuildV (L : Layout) (v : Value) : Option (List Nat) :=
  match v with
  | .vdict d => structBuild L d
  | _ => none

/-! ## The record wrapper (class `Constructed`) -/

/-- A record instance: the record kind (the Python class, identified by a
number) and the raw byte buffer `self._data`. -/
structure Record where
  kind : Nat
  data : List Nat

/-- `Constructed.__eq__`: `self._data == other._data` — the class plays no
part. -/
def recordEq (a b : Record) : Bool :=
  a.data == b.data

/-- `Constructed.__hash__`: `reduce(xor, map(hash, (self.__class__, self._data)))`,
i.e. the hash of the class xor the hash of the raw bytes. Python's `hash` is
interpreter-dependent, so it is a parameter. -/
def recordHash (hashK : Nat → Nat) (hashB : List Nat → Nat) (r : Record) : Nat :=
  hashK r.kind ^^^ hashB r.data

/-- `Constructed._offsets_and_sizes`: each subcon's name with its cumulative
offset and its size, in layout order. -/
def offsetsAndSizes (L : Layout) : List (FName × Int × Int) :=
  (L.foldl (fun (acc : List (FName × Int × Int) × Int) (e : FName × SubCon) =>
      (acc.1 ++ [(e.1, acc.2, e.2.sizeofC)], acc.2 + e.2.sizeofC)) ([], 0)).1

/-- The Python slice `data[offset : offset + size]` for the non-negative
offsets and sizes the layouts produce. -/
def rawSlice (data : List Nat) (offset size : Int) : List Nat :=
  (data.drop offset.toNat).take size.toNat

/-- What `Constructed.diff` prints for one differing field. -/
inductive DiffAction where
  | structuralDiff
  | hexDiff
  | valueDiff
deriving DecidableEq, Repr

/-- The rendering choice of `Constructed.diff` for a field that reached the
body of the loop: structural pseudo-json diff when byte mode is off, the
decoded value differs from the raw bytes and is not a scalar; otherwise a
line-oriented hex diff when `max_len` is truthy, the decoded value is a byte
array and the raw slice is longer than `max_len`; otherwise the two-line
value diff. -/
def diffAction (byteDiff : Bool) (maxLen : Option Int) (ownVal : Value)
    (ownRaw : List Nat) : DiffAction :=
  let valNeRaw : Bool := match ownVal with
    | .vbytes bs => bs ≠ ownRaw
    | _ => true
  let isScalar : Bool := match ownVal with
    | .vint _ => true
    | .vstr _ => true
    | _ => false
  let isBytes : Bool := match ownVal with
    | .vbytes _ => true
    | _ => false
  if !byteDiff && valNeRaw && !isScalar then .structuralDiff
  else
    match maxLen with
    | some m => if m ≠ 0 ∧ isBytes ∧ (ownRaw.length : Int) > m then .hexDiff else .valueDiff
    | none => .valueDiff

/-- The `keys` argument filter: `keys and key not in keys` (an empty
collection is falsy, so it filters nothing). -/
def keyExcluded (keys : Option (List FName)) (key : FName) : Bool :=
  match keys with
  | none => false
  | some ks => !ks.isEmpty && !ks.contains key

/-- `Constructed.diff`: walk `raw_items()` of the first record; skip fields
excluded by the key filter or whose raw slices coincide; report the rendering
choice for each remaining field (`self[key]` is `_clean` of the parsed
entry). -/
def diffReport (L : Layout) (parsedA : List (FName × Value)) (dataA dataB : List Nat)
    (maxLen : Option Int) (byteDiff : Bool) (keys : Option (List FName)) :
    List (FName × DiffAction) :=
  (offsetsAndSizes L).filterMap (fun e =>
    let (key, offset, size) := e
    let ownRaw := rawSlice dataA offset size
    let otherRaw := rawSlice dataB offset size
    if keyExcluded keys key || ownRaw == otherRaw then none
    else
      match dlookup parsedA key with
      | some pv => some (key, diffAction byteDiff maxLen (pyclean pv) ownRaw)
      | none => none)

/-! ## The checksum adapter (adapters.py) -/

/-- Result of parsing a `Checksum` field: the stored value on success, a
validation error carrying the stored and the computed sums, or a non-
validation stream failure. -/
inductive ChkResult where
  | ok (value : Nat)
  | invalid (stored computed : Nat)
  | streamErr
deriving DecidableEq, Repr

/-- `Checksum._parse`: `_get_checksum` seeks `seek` bytes backwards from the
field's position, sums the next `read` bytes (`BytesIO.read` stops at the end
of the buffer) and restores the position; then `Int32ul` parses the stored
value, and a mismatch raises a `ValidationError` naming both values. Seeking
before the start of the stream or hitting the end while reading the stored
integer raises a non-validation error. -/
def checksumParse (seek read : Nat) (data : List Nat) (pos : Nat) : ChkResult :=
  if seek ≤ pos then
    let computed := ((data.drop (pos - seek)).take read).sum
    if pos + 4 ≤ data.length then
      let stored := leVal ((data.drop pos).take 4)
      if stored ≠ computed then .invalid stored computed else .ok stored
    else .streamErr
  else .streamErr

/-! ## Saving (save_file.py) over an explicit file-system state -/

/-- The file system: path contents, keyed by path. -/
abbrev FS := List (String × List Nat)

/-- `path.exists()`. -/
def fsExists (fs : FS) (p : String) : Bool :=
  fs.any (fun e => e.1 = p)

/-- `path.write_bytes(data)`: create or truncate. -/
def fsWrite (fs : FS) (p : String) (bs : List Nat) : FS :=
  dinsert fs p bs

/-- `shutil.copy(src, dst)` for an existing source. -/
def fsCopy (fs : FS) (src dst : String) : FS :=
  match dlookup fs src with
  | some bs => dinsert fs dst bs
  | none => fs

/-- Modelled from the spec: `unique_path` (utils.py, which is not among the
provided sources) picks a backup name derived from the destination name with
a distinguishing `.bkp` suffix, chosen to not collide with an existing file
in the destination directory. -/
def uniquePathAux (fs : FS) : Nat → String → String
  | 0, cand => cand
  | k + 1, cand => if fsExists fs cand then uniquePathAux fs k (cand ++ ".bkp") else cand

/-- Modelled from the spec (continued): the backup-name search itself. -/
def uniquePath (fs : FS) (p : String) : String :=
  uniquePathAux fs (fs.length + 1) (p ++ ".bkp")

/-- Errors `CTLOFile.save` can raise. -/
inductive SaveErr where
  | noPath
  | buildFailed
deriving DecidableEq, Repr

/-- `CTLOFile.save(path, backup)`: resolve the destination (the argument, or
the path the record was loaded from; none raises `ValueError`); build the
output bytes from the current parsed tree (`self._construct.build(self._build())`
— a build failure propagates before any file operation); then, when `backup`
is set and the destination exists, copy it to a fresh backup path; finally
write the built bytes. The returned state is the file system after the call;
an error report means the call raised at that point. -/
def save (L : Layout) (tree : List (FName × Value)) (pathArg selfPath : Option String)
    (backup : Bool) (fs : FS) : FS × Option SaveErr :=
  match pathArg.orElse (fun _ => selfPath) with
  | none => (fs, some .noPath)
  | some path =>
    match structBuildV L (pybuild (.vdict tree)) with
    | none => (fs, some .buildFailed)
    | some data =>
      let fs1 := if backup && fsExists fs path then fsCopy fs path (uniquePath fs path) else fs
      (fsWrite fs1 path data, none)

/-! ## Well-formedness predicates for the round-trip statements -/

/-- The flat sub-constructs the shipped layouts consist of: `Int32ul` and
non-negative-length `Bytes`. -/
def flatSubB : SubCon → Bool
  | .int32ul => true
  | .bytes n => 0 ≤ n
  | _ => false

/-- Flat parsed values: integers and byte arrays. -/
def isFlatV : Value → Bool
  | .vint _ => true
  | .vbytes _ => true
  | _ => false

/-- A subcon's size as a natural (its sizes are non-negative for flat
subcons). -/
def natSize (sc : SubCon) : Nat := sc.sizeofC.toNat

/-- A layout's total size as a natural. -/
def layoutNatSize (L : Layout) : Nat :=
  (L.map (fun e => natSize e.2)).sum

/-- A layout over flat subcons whose field names are distinct and avoid the
reserved `_io` container key — the shipped CTLO layout satisfies this. -/
def LayoutOK (L : Layout) : Prop :=
  (∀ e ∈ L, flatSubB e.2 = true) ∧ (L.map Prod.fst).Nodup ∧
    (FName.named "_io") ∉ L.map Prod.fst

instance (L : Layout) : Decidable (LayoutOK L) := by
  unfold LayoutOK
  infer_instance

/-! ## Spec-side definitions (for refinement comparisons only) -/

/-- Spec-side: a run of aligned filler fields of exactly `align` bytes each,
named `_unk_<start>`, covering `[pos, offset)` (stated via `List.range`, not
via the code's loop). -/
def specAlignedRun (align pos offset : Int) : Layout :=
  (List.range ((offset - pos) / align).toNat).map
    (fun (i : Nat) => (unkN (pos + align * (i : Int)), SubCon.bytes align))

/-- Spec-side: the layout claimed for the CTLO record kind by the spec's
scenario — consolidated fillers `_unk_0`(12), `_unk_16`(44), `_unk_64`(116)
and `_unk_184`(716) around the three declared fields. -/
def ctloLayoutClaimed : Layout :=
  [(unkN 0, .bytes 12), (.named "changed_0", .int32ul),
   (unkN 16, .bytes 44), (.named "changed_1", .int32ul),
   (unkN 64, .bytes 116), (.named "changed_2", .int32ul),
   (unkN 184, .bytes 716)]

/-- The layout the code actually produces for the CTLO record kind: runs of
4-byte fillers around the three declared fields. -/
def ctloLayoutActual : Layout :=
  specAlignedRun 4 0 12 ++ [(.named "changed_0", .int32ul)] ++
  specAlignedRun 4 16 60 ++ [(.named "changed_1", .int32ul)] ++
  specAlignedRun 4 64 180 ++ [(.named "changed_2", .int32ul)] ++
  specAlignedRun 4 184 900

/-! ## Helper lemmas -/

set_option maxRecDepth 100000 in
set_option maxHeartbeats 4000000 in
/-- Evaluation of the layout builder on the shipped CTLO record kind. -/
theorem ctlo_eval : sparseStructNew 900 4 ctloFields = some ctloLayoutActual := by
  decide

theorem ctloLayout_eq : ctloLayout = ctloLayoutActual := by
  unfold ctloLayout
  rw [ctlo_eval]
  rfl

theorem sparseStructNew_some (size align : Int) (fields : List (Int × FName × SubCon))
    (L : Layout) (h : sparseStructNew size align fields = some L) :
    layoutSize L = size := by
  unfold sparseStructNew at h
  by_cases hls : layoutSize (sparseDict size align fields) = size
  · simpa [hls] using (by simpa [hls] using h : sparseDict size align fields = L) ▸ hls
  · simp [hls] at h

theorem sparseStructNew_none_iff (size align : Int) (fields : List (Int × FName × SubCon)) :
    sparseStructNew size align fields = none ↔
      layoutSize (sparseDict size align fields) ≠ size := by
  unfold sparseStructNew
  by_cases hls : layoutSize (sparseDict size align fields) = size <;> simp [hls]

/-! ## Claim C2 -/

/-- C2: for every set of declared field descriptors, every layout the
construction returns has field sizes (declared fields plus synthesized
fillers) summing exactly to the declared total size, and whenever the sizes
of the built field dict do not sum to the total size, construction fails with
the assertion error instead of producing a layout. -/
theorem layout_sizes_sum_to_total (size align : Int)
    (fields : List (Int × FName × SubCon)) :
    (∀ L : Layout, sparseStructNew size align fields = some L → layoutSize L = size) ∧
    (layoutSize (sparseDict size align fields) ≠ size →
      sparseStructNew size align fields = none) := by
  constructor
  · intro L h
    exact sparseStructNew_some size align fields L h
  · intro h
    exact (sparseStructNew_none_iff size align fields).mpr h

/-- C2 witness: the shipped CTLO declaration produces a layout whose sizes sum
to 900. -/
theorem layout_sizes_sum_to_total_witness : layoutSize ctloLayoutActual = 900 :=
  (layout_sizes_sum_to_total 900 4 ctloFields).1 ctloLayoutActual ctlo_eval

/-! ## Claim C5 -/

/-- Two declared 4-byte fields at offsets 0 and 2: their byte ranges `[0, 4)`
and `[2, 6)` overlap. -/
def overlapFields : List (Int × FName × SubCon) :=
  [(0, .named "a", .int32ul), (2, .named "b", .int32ul)]

/-- A declared field at offset 10 of size 100 in a 50-byte record
(`10 + 100 > 50`), together with a second field at offset 20. -/
def oobFields : List (Int × FName × SubCon) :=
  [(10, .named "a", .bytes 100), (20, .named "b", .int32ul)]

/-- C5 counterexample: layout construction does NOT raise on overlapping
declared fields, nor on a declared field exceeding the total size — in both
cases the gap filler for the backwards cursor move is a negative-size
`Bytes`, the sizes still sum to the declared total, the assertion passes,
and a layout is silently produced. -/
theorem overlap_oob_counterexample :
    (sparseStructNew 12 4 overlapFields).isSome = true ∧
    (sparseStructNew 50 4 oobFields).isSome = true ∧
    sparseStructNew 12 4 overlapFields =
      some [(.named "a", .int32ul), (unkN 4, .bytes (-2)), (.named "b", .int32ul),
            (unkN 6, .bytes 2), (unkN 8, .bytes 4)] := by
  refine ⟨by decide, by decide, by decide⟩

/-- C5 amended: layout construction raises a fatal construction-time error
exactly when the sizes of the built field dict (declared fields plus
synthesized fillers, which can have negative sizes when declared fields
overlap or overrun the record) fail to sum to the declared total size;
overlapping or out-of-bounds declared fields as such are not detected, and
can silently produce a layout when the sizes still sum to the total. -/
theorem layout_error_iff_sum_mismatch (size align : Int)
    (fields : List (Int × FName × SubCon)) :
    sparseStructNew size align fields = none ↔
      layoutSize (sparseDict size align fields) ≠ size :=
  sparseStructNew_none_iff size align fields

/-- C5 witness: a single 4-byte field in a 3-byte record fails the size
assertion, so no layout is produced. -/
theorem layout_error_iff_sum_mismatch_witness :
    sparseStructNew 3 4 [(0, .named "a", .int32ul)] = none :=
  (layout_error_iff_sum_mismatch 3 4 [(0, .named "a", .int32ul)]).mpr (by decide)

/-! ## Claim C4 -/

/-- C4 counterexample: the CTLO layout is not the spec's claimed list of
consolidated fillers (`_unk_0` of 12 bytes, `_unk_16` of 44 bytes, `_unk_64`
of 116 bytes, `_unk_184` of 716 bytes around the three declared fields): the
gap-fill loop emits alignment-sized chunks, so the first filler is `_unk_0`
of 4 bytes. -/
theorem ctlo_layout_counterexample :
    sparseStructNew 900 4 ctloFields ≠ some ctloLayoutClaimed := by
  rw [ctlo_eval]
  decide

set_option maxRecDepth 100000 in
/-- C4 amended: the layout built with `total_size=900, alignment=4` and
4-byte unsigned fields at offsets 12, 60 and 180 consists, in order, of
4-byte fillers `_unk_0, _unk_4, _unk_8`, a 4-byte field, 11 4-byte fillers
`_unk_16 … _unk_56`, a 4-byte field, 29 4-byte fillers `_unk_64 … _unk_176`,
a 4-byte field, and 179 4-byte fillers `_unk_184 … _unk_896`, totalling
900 bytes. -/
theorem ctlo_layout_amended :
    sparseStructNew 900 4 ctloFields = some ctloLayoutActual ∧
    layoutSize ctloLayoutActual = 900 ∧
    ctloLayoutActual =
      specAlignedRun 4 0 12 ++ [(.named "changed_0", .int32ul)] ++
      specAlignedRun 4 16 60 ++ [(.named "changed_1", .int32ul)] ++
      specAlignedRun 4 64 180 ++ [(.named "changed_2", .int32ul)] ++
      specAlignedRun 4 184 900 :=
  ⟨ctlo_eval, by decide, rfl⟩

/-! ## Claim C10 -/

/-- C10: record equality compares only the raw byte buffers and ignores the
record kind, while the hash mixes the class into the raw-bytes hash; within
one record kind equal raw bytes give equal hashes (for any hash functions),
and byte-identical records of different kinds compare equal yet can have
different hashes. -/
theorem record_eq_hash :
    (∀ a b : Record, recordEq a b = true ↔ a.data = b.data) ∧
    (∀ (hK : Nat → Nat) (hB : List Nat → Nat) (a b : Record),
        a.kind = b.kind → a.data = b.data →
        recordHash hK hB a = recordHash hK hB b) ∧
    (recordEq ⟨0, [1]⟩ ⟨1, [1]⟩ = true ∧
      recordHash id (fun _ => 0) ⟨0, [1]⟩ ≠ recordHash id (fun _ => 0) ⟨1, [1]⟩) := by
  refine ⟨fun a b => ?_, fun hK hB a b hk hd => ?_, by decide, by decide⟩
  · simp [recordEq]
  · simp [recordHash, hk, hd]

/-- C10 witness: equality and hash agreement at a concrete pair of records of
the same kind with the same bytes. -/
theorem record_eq_hash_witness :
    recordEq ⟨0, [2, 3]⟩ ⟨0, [2, 3]⟩ = true ∧
    recordHash id (fun _ => 5) ⟨0, [2, 3]⟩ = recordHash id (fun _ => 5) ⟨0, [2, 3]⟩ :=
  ⟨(record_eq_hash.1 _ _).mpr rfl, record_eq_hash.2.1 id _ _ _ rfl rfl⟩

/-! ## Claim C7 -/

/-- C7: parsing a Checksum field with parameters `seek` and `read` fails with
a validation error identifying both the stored and the computed sums exactly
when the stored unsigned integer differs from the sum of the bytes in the
window of `read` bytes starting `seek` bytes before the field's position;
when they match, parse returns the stored value. -/
theorem checksum_parse_validation (seek read : Nat) (data : List Nat) (pos : Nat)
    (h1 : seek ≤ pos) (h2 : pos + 4 ≤ data.length) :
    (checksumParse seek read data pos =
        .invalid (leVal ((data.drop pos).take 4)) (((data.drop (pos - seek)).take read).sum) ↔
      leVal ((data.drop pos).take 4) ≠ ((data.drop (pos - seek)).take read).sum) ∧
    (leVal ((data.drop pos).take 4) = ((data.drop (pos - seek)).take read).sum →
      checksumParse seek read data pos = .ok (leVal ((data.drop pos).take 4))) := by
  unfold checksumParse
  by_cases hne : leVal ((data.drop pos).take 4) = ((data.drop (pos - seek)).take read).sum <;>
    simp [h1, h2, hne]

/-- C7 witness: with `seek=16, read=16`, a window of sixteen `1` bytes and a
stored value of 17, parsing raises the validation error naming the stored sum
17 and the computed sum 16. -/
theorem checksum_parse_validation_witness :
    checksumParse 16 16 (List.replicate 16 1 ++ [17, 0, 0, 0]) 16 = .invalid 17 16 := by
  have h := (checksum_parse_validation 16 16 (List.replicate 16 1 ++ [17, 0, 0, 0]) 16
    (by decide) (by decide)).1.mpr (by decide)
  rw [h]
  decide

/-! ## Claim C8 -/

/-- C8: the save operation builds the output bytes from the current parsed
tree before any file operation, so when the build step fails, the call raises
and the file system is left completely untouched — no file is created,
truncated, copied or modified. -/
theorem save_build_failure_leaves_fs (L : Layout) (tree : List (FName × Value))
    (pathArg selfPath : Option String) (backup : Bool) (fs : FS)
    (h : structBuildV L (pybuild (.vdict tree)) = none) :
    (save L tree pathArg selfPath backup fs).1 = fs ∧
    (save L tree pathArg selfPath backup fs).2 ≠ none := by
  unfold save
  cases hp : pathArg.orElse fun _ => selfPath <;> simp [hp, h]

/-- C8 witness: building an empty tree against a one-field layout fails (the
field name is missing), and save leaves the (empty) file system untouched
while reporting an error. -/
theorem save_build_failure_leaves_fs_witness :
    (save [(.named "f", .int32ul)] [] (some "p") none true []).1 = [] ∧
    (save [(.named "f", .int32ul)] [] (some "p") none true []).2 ≠ none :=
  save_build_failure_leaves_fs [(.named "f", .int32ul)] [] (some "p") none true []
    (by decide)

/-! ## Claim C3: the gap-fill policy -/

theorem dinsert_fresh {κ α : Type} [DecidableEq κ] (d : List (κ × α)) (k : κ) (v : α)
    (h : k ∉ d.map Prod.fst) : dinsert d k v = d ++ [(k, v)] := by
  have hany : d.any (fun p => p.1 = k) = false := by
    rw [List.any_eq_false]
    intro p hp
    simp only [decide_eq_true_eq]
    intro hpk
    exact h (List.mem_map.mpr ⟨p, hp, hpk⟩)
  simp [dinsert, hany]

theorem specAlignedRun_self (align pos : Int) : specAlignedRun align pos pos = [] := by
  simp [specAlignedRun]

theorem specAlignedRun_cons (align pos offset : Int) (ha : 0 < align)
    (hdvd : align ∣ (offset - pos)) (hlt : pos < offset) :
    specAlignedRun align pos offset =
      (unkN pos, SubCon.bytes align) :: specAlignedRun align (pos + align) offset := by
  obtain ⟨c, hc⟩ := hdvd
  have hc0 : 0 < c := by nlinarith [hc]
  have h1 : (offset - pos) / align = c := by
    rw [hc]
    exact Int.mul_ediv_cancel_left c (by omega)
  have h2 : (offset - (pos + align)) / align = c - 1 := by
    have he : offset - (pos + align) = align * (c - 1) := by rw [mul_sub]; omega
    rw [he]
    exact Int.mul_ediv_cancel_left _ (by omega)
  have h3 : c.toNat = (c - 1).toNat + 1 := by omega
  unfold specAlignedRun
  rw [h1, h2, h3, List.range_succ_eq_map]
  simp only [List.map_cons, List.map_map]
  congr 1
  · simp only [Prod.mk.injEq, unkN, FName.unk.injEq, and_true]
    push_cast
    ring
  · refine List.map_congr_left fun i _ => ?_
    simp only [Function.comp_apply, Prod.mk.injEq, unkN, FName.unk.injEq, and_true]
    push_cast
    ring

theorem fillLoop_eq (align : Int) (ha : 0 < align) :
    ∀ (fuel : Nat) (d : Layout) (pos offset : Int),
      align ∣ (offset - pos) → pos ≤ offset → (offset - pos).toNat ≤ fuel →
      (∀ q : Int, pos ≤ q → unkN q ∉ d.map Prod.fst) →
      fillLoop align fuel d pos offset = (d ++ specAlignedRun align pos offset, offset) := by
  intro fuel
  induction fuel with
  | zero =>
    intro d pos offset hdvd hle hf hfresh
    have heq : offset = pos := by omega
    subst heq
    simp [fillLoop, specAlignedRun_self]
  | succ n ih =>
    intro d pos offset hdvd hle hf hfresh
    by_cases hlt : pos < offset
    · have hAlignLe : align ≤ offset - pos := Int.le_of_dvd (by omega) hdvd
      have hfresh_pos : unkN pos ∉ d.map Prod.fst := hfresh pos le_rfl
      have hdvd' : align ∣ (offset - (pos + align)) := by
        rw [show offset - (pos + align) = (offset - pos) - align by ring]
        exact dvd_sub hdvd dvd_rfl
      have hstep : fillLoop align (n + 1) d pos offset =
          fillLoop align n (dinsert d (unkN pos) (.bytes align)) (pos + align) offset := by
        simp [fillLoop, hlt]
      have hfresh' : ∀ q : Int, pos + align ≤ q →
          unkN q ∉ (d ++ [(unkN pos, SubCon.bytes align)]).map Prod.fst := by
        intro q hq
        simp only [List.map_append, List.map_cons, List.map_nil, List.mem_append,
          List.mem_singleton, not_or]
        refine ⟨hfresh q (by omega), ?_⟩
        simp only [unkN, FName.unk.injEq]
        omega
      rw [hstep, dinsert_fresh d _ _ hfresh_pos,
        ih (d ++ [(unkN pos, SubCon.bytes align)]) (pos + align) offset hdvd' (by omega)
          (by omega) hfresh']
      rw [specAlignedRun_cons align pos offset ha hdvd hlt]
      simp
    · have heq : offset = pos := by omega
      subst heq
      simp [fillLoop, hlt, specAlignedRun_self]

theorem fillIn_small (align : Int) (d : Layout) (pos offset : Int)
    (h : offset - pos ≤ align) :
    fillIn align d pos offset = (dinsert d (unkN pos) (.bytes (offset - pos)), offset) := by
  unfold fillIn
  rw [if_neg (by omega)]

theorem fillIn_large_rem (align pos offset : Int) (ha : 0 < align)
    (hgt : align < offset - pos) (hmod : (offset - pos) % align ≠ 0) :
    fillIn align [] pos offset =
      ((unkN pos, SubCon.bytes ((offset - pos) % align)) ::
        specAlignedRun align (pos + (offset - pos) % align) offset, offset) := by
  have hpart : offset - pos - (offset - pos) / align * align = (offset - pos) % align := by
    rw [Int.emod_def]
    ring
  have hmod0 : 0 ≤ (offset - pos) % align := Int.emod_nonneg _ (by omega)
  have hmodlt : (offset - pos) % align < align := Int.emod_lt_of_pos _ ha
  have hins : dinsert ([] : Layout) (unkN pos) (.bytes ((offset - pos) % align)) =
      [(unkN pos, .bytes ((offset - pos) % align))] := by
    simp [dinsert]
  unfold fillIn
  rw [if_pos (by omega), if_pos hmod, hpart]
  dsimp only
  rw [hins]
  rw [fillLoop_eq align ha _ _ _ _ ?dvd ?le le_rfl ?fresh]
  · simp
  case dvd =>
    refine ⟨(offset - pos) / align, ?_⟩
    rw [Int.emod_def]
    ring
  case le => omega
  case fresh =>
    intro q hq
    simp only [List.map_cons, List.map_nil, List.mem_singleton, unkN, FName.unk.injEq]
    omega


/-- C3: for every gap between the cursor and the next declared field (or the
record end), if the gap is at most the alignment, exactly one filler of
exactly the gap's size is emitted; if the gap exceeds the alignment and is
not a multiple of it, one filler of `gap mod alignment` bytes is emitted
first, followed by fillers of exactly `alignment` bytes each until the gap is
exhausted; every filler is named `_unk_<its starting offset>`. -/
theorem gap_fill_policy (align : Int) (d : Layout) (pos offset : Int)
    (ha : 0 < align) (_hlt : pos < offset) :
    (offset - pos ≤ align →
      fillIn align d pos offset = (dinsert d (unkN pos) (.bytes (offset - pos)), offset)) ∧
    (align < offset - pos → (offset - pos) % align ≠ 0 →
      fillIn align [] pos offset =
        ((unkN pos, SubCon.bytes ((offset - pos) % align)) ::
          specAlignedRun align (pos + (offset - pos) % align) offset, offset)) :=
  ⟨fun h => fillIn_small align d pos offset h,
   fun h1 h2 => fillIn_large_rem align pos offset ha h1 h2⟩

/-- C3 witness: a 3-byte gap at alignment 4 gives one 3-byte filler `_unk_0`;
a 10-byte gap gives a 2-byte filler `_unk_0` followed by 4-byte fillers
`_unk_2` and `_unk_6`. -/
theorem gap_fill_policy_witness :
    fillIn 4 [] 0 3 = ([(unkN 0, SubCon.bytes 3)], 3) ∧
    fillIn 4 [] 0 10 =
      ([(unkN 0, SubCon.bytes 2), (unkN 2, SubCon.bytes 4), (unkN 6, SubCon.bytes 4)], 10) := by
  constructor
  · have h := (gap_fill_policy 4 [] 0 3 (by decide) (by decide)).1 (by decide)
    rw [h]
    decide
  · have h := (gap_fill_policy 4 [] 0 10 (by decide) (by decide)).2 (by decide) (by decide)
    rw [h]
    decide

/-! ## Claim C1: the round trip -/

theorem leVal_lt (bs : List Nat) (h4 : bs.length = 4) (hb : ∀ b ∈ bs, b < 256) :
    leVal bs < 4294967296 := by
  rcases bs with (_ | ⟨b0, (_ | ⟨b1, (_ | ⟨b2, (_ | ⟨b3, (_ | ⟨b4, t⟩)⟩)⟩)⟩)⟩) <;>
    simp_all [leVal]
  have hb0 : b0 < 256 := hb.1
  have hb1 : b1 < 256 := hb.2.1
  have hb2 : b2 < 256 := hb.2.2.1
  have hb3 : b3 < 256 := hb.2.2.2
  omega

theorem leBytes4_leVal (bs : List Nat) (h4 : bs.length = 4) (hb : ∀ b ∈ bs, b < 256) :
    leBytes4 (leVal bs) = bs := by
  rcases bs with (_ | ⟨b0, (_ | ⟨b1, (_ | ⟨b2, (_ | ⟨b3, (_ | ⟨b4, t⟩)⟩)⟩)⟩)⟩) <;>
    simp_all [leVal, leBytes4]
  have hb0 : b0 < 256 := hb.1
  have hb1 : b1 < 256 := hb.2.1
  have hb2 : b2 < 256 := hb.2.2.1
  have hb3 : b3 < 256 := hb.2.2.2
  omega

theorem slice_length (data : List Nat) (pos n : Nat) (h : pos + n ≤ data.length) :
    ((data.drop pos).take n).length = n := by
  rw [List.length_take, List.length_drop]
  omega

theorem slice_mem (data : List Nat) (pos n : Nat) (b : Nat)
    (h : b ∈ (data.drop pos).take n) : b ∈ data :=
  List.mem_of_mem_drop (List.mem_of_mem_take h)

theorem subcon_parse_build (sc : SubCon) (data : List Nat) (pos : Nat)
    (hsc : flatSubB sc = true) (hb : ∀ b ∈ data, b < 256)
    (hlen : pos + natSize sc ≤ data.length) :
    ∃ v, sc.parse data pos = some (v, pos + natSize sc) ∧ isFlatV v = true ∧
      sc.build v = some ((data.drop pos).take (natSize sc)) := by
  cases sc with
  | int32ul =>
      have h4 : pos + 4 ≤ data.length := hlen
      refine ⟨.vint (leVal ((data.drop pos).take 4)), ?_, rfl, ?_⟩
      · simp [SubCon.parse, h4]
        rfl
      · have hslen : ((data.drop pos).take 4).length = 4 := slice_length data pos 4 h4
        have hsmem : ∀ b ∈ (data.drop pos).take 4, b < 256 := fun b hbm =>
          hb b (slice_mem data pos 4 b hbm)
        have hlt := leVal_lt _ hslen hsmem
        simp only [SubCon.build]
        rw [if_pos ⟨Int.natCast_nonneg _, by exact_mod_cast hlt⟩]
        rw [Int.toNat_natCast, leBytes4_leVal _ hslen hsmem]
        rfl
  | bytes n =>
      have hn : 0 ≤ n := by simpa [flatSubB] using hsc
      have hlen' : pos + n.toNat ≤ data.length := hlen
      refine ⟨.vbytes ((data.drop pos).take n.toNat), ?_, rfl, ?_⟩
      · simp [SubCon.parse, hn, hlen']
        rfl
      · have hslen : ((data.drop pos).take n.toNat).length = n.toNat :=
          slice_length data pos n.toNat hlen'
        simp only [SubCon.build]
        rw [if_pos (by rw [hslen]; exact Int.toNat_of_nonneg hn)]
        rfl
  | rawCopy inner =>
      simp [flatSubB] at hsc

theorem dlookup_self {κ α : Type} [DecidableEq κ] :
    ∀ (l : List (κ × α)) (k : κ) (v : α), (l.map Prod.fst).Nodup → (k, v) ∈ l →
      dlookup l k = some v := by
  intro l
  induction l with
  | nil => intro k v _ hm; simp at hm
  | cons e rest ih =>
      intro k v hnd hm
      obtain ⟨k', v'⟩ := e
      rw [List.map_cons, List.nodup_cons] at hnd
      rcases List.mem_cons.mp hm with heq | htail
      · injection heq with h1 h2
        subst h1
        subst h2
        simp [dlookup]
      · have hk : k' ≠ k := by
          rintro rfl
          exact hnd.1 (List.mem_map.mpr ⟨(k', v), htail, rfl⟩)
        simp only [dlookup, if_neg hk]
        exact ih k v hnd.2 htail

theorem struct_parse_build_aux (L : Layout) :
    ∀ (data : List Nat) (pos : Nat),
      (∀ e ∈ L, flatSubB e.2 = true) → (∀ b ∈ data, b < 256) →
      pos + layoutNatSize L ≤ data.length →
      ∃ t, structParseAux L data pos = some (t, pos + layoutNatSize L) ∧
        t.map Prod.fst = L.map Prod.fst ∧
        (∀ e ∈ t, isFlatV e.2 = true) ∧
        (∀ obj : List (FName × Value),
          (∀ e ∈ t, dlookup obj e.1 = some e.2) →
          structBuild L obj = some ((data.drop pos).take (layoutNatSize L))) := by
  induction L with
  | nil =>
      intro data pos _ _ _
      refine ⟨[], ?_, rfl, by simp, ?_⟩
      · simp [structParseAux, layoutNatSize]
      · intro obj _
        simp [structBuild, layoutNatSize]
  | cons e rest ih =>
      intro data pos hfl hb hlen
      obtain ⟨name, sc⟩ := e
      have hsize : layoutNatSize ((name, sc) :: rest) = natSize sc + layoutNatSize rest := by
        simp [layoutNatSize]
      obtain ⟨v, hparse, hflat, hbuild⟩ :=
        subcon_parse_build sc data pos (hfl (name, sc) (by simp)) hb (by omega)
      obtain ⟨t, hparseR, hnames, hflatR, hbuildR⟩ :=
        ih data (pos + natSize sc) (fun e he => hfl e (List.mem_cons_of_mem _ he)) hb
          (by omega)
      refine ⟨(name, v) :: t, ?_, by simp [hnames], ?_, ?_⟩
      · simp only [structParseAux, hparse, hparseR, hsize, Nat.add_assoc]
      · intro e he
        rcases List.mem_cons.mp he with rfl | htail
        · exact hflat
        · exact hflatR e htail
      · intro obj hobj
        have hhead : dlookup obj name = some v := hobj (name, v) (by simp)
        have hrest : structBuild rest obj =
            some ((data.drop (pos + natSize sc)).take (layoutNatSize rest)) :=
          hbuildR obj (fun e he => hobj e (List.mem_cons_of_mem _ he))
        have hsplit : (data.drop pos).take (natSize sc + layoutNatSize rest) =
            (data.drop pos).take (natSize sc) ++
              (data.drop (pos + natSize sc)).take (layoutNatSize rest) := by
          rw [List.take_add, List.drop_drop]
        simp only [structBuild, hhead, hbuild, hrest, hsize, hsplit]

theorem keyEqSet_io_false (ks : List FName) :
    keyEqSet (.named "_io" :: ks) rawCopyKeys = false := by
  unfold keyEqSet
  rw [List.all_cons, show rawCopyKeys.contains (FName.named "_io") = false from by decide]
  rfl

theorem pybuild_flat (v : Value) (h : isFlatV v = true) : pybuild v = v := by
  cases v <;> simp_all [isFlatV, pybuild]

theorem pybuildD_flat (t : List (FName × Value)) (h : ∀ e ∈ t, isFlatV e.2 = true) :
    pybuildD t = t := by
  induction t with
  | nil => simp [pybuildD]
  | cons e rest ih =>
      obtain ⟨k, v⟩ := e
      simp only [pybuildD]
      rw [pybuild_flat v (h (k, v) (by simp)),
        ih (fun e he => h e (List.mem_cons_of_mem _ he))]

theorem filter_ne_io (l : List (FName × Value))
    (h : FName.named "_io" ∉ l.map Prod.fst) :
    l.filter (fun p => p.1 ≠ FName.named "_io") = l := by
  rw [List.filter_eq_self]
  intro a ha
  have hne : a.1 ≠ FName.named "_io" := fun heq => h (List.mem_map.mpr ⟨a, ha, heq⟩)
  simp [hne]

theorem struct_roundtrip (L : Layout) (hok : LayoutOK L) (data : List Nat)
    (hlen : data.length = layoutNatSize L) (hb : ∀ b ∈ data, b < 256) :
    ∃ t, structParse L data = some t ∧
      structBuildV L (pybuild (.vdict t)) = some data := by
  obtain ⟨hfl, hnd, hio⟩ := hok
  obtain ⟨t, hparse, hnames, hflat, hbuild⟩ :=
    struct_parse_build_aux L data 0 hfl hb (by omega)
  refine ⟨(.named "_io", .vio) :: t, ?_, ?_⟩
  · simp [structParse, hparse]
  · have hioT : FName.named "_io" ∉ t.map Prod.fst := by rw [hnames]; exact hio
    have hkeys : keyEqSet (((FName.named "_io", Value.vio) :: t).map Prod.fst) rawCopyKeys
        = false := by
      rw [List.map_cons]
      exact keyEqSet_io_false _
    have hDmap : pybuildD ((FName.named "_io", Value.vio) :: t) =
        (FName.named "_io", Value.vio) :: t := by
      simp only [pybuildD]
      rw [pybuildD_flat t hflat]
      rfl
    have hfilter : ((FName.named "_io", Value.vio) :: t).filter
        (fun p => p.1 ≠ FName.named "_io") = t := by
      have hdec : (decide ((FName.named "_io", Value.vio).1 ≠ FName.named "_io")) = false := by
        decide
      rw [List.filter_cons, hdec]
      simp only [Bool.false_eq_true, if_false]
      exact filter_ne_io t hioT
    have hpb : pybuild (.vdict ((FName.named "_io", Value.vio) :: t)) = .vdict t := by
      simp only [pybuild]
      rw [hkeys, hDmap]
      simp only [Bool.false_eq_true, if_false]
      rw [hfilter]
    have hobj : ∀ e ∈ t, dlookup t e.1 = some e.2 := by
      intro e he
      have hnd' : (t.map Prod.fst).Nodup := by rw [hnames]; exact hnd
      exact dlookup_self t e.1 e.2 hnd' (by simpa using he)
    have hbuildT := hbuild t hobj
    rw [hpb]
    simp only [structBuildV]
    rw [hbuildT, List.drop_zero, ← hlen, List.take_length]

set_option maxRecDepth 100000 in
set_option maxHeartbeats 4000000 in
/-- C1: for every byte buffer whose length equals the CTLO record kind's
declared total size of 900 bytes, parsing it with the record's layout and
then building the resulting structured tree, with no field mutated in
between, yields a buffer bit-for-bit equal to the original. -/
theorem ctlo_roundtrip (buf : List Nat) (hlen : buf.length = 900)
    (hb : ∀ b ∈ buf, b < 256) :
    ∃ t, structParse ctloLayout buf = some t ∧
      structBuildV ctloLayout (pybuild (.vdict t)) = some buf := by
  apply struct_roundtrip
  · rw [ctloLayout_eq]
    decide
  · rw [hlen, ctloLayout_eq]
    decide
  · exact hb

/-- C1 witness: the all-zero 900-byte buffer round-trips. -/
theorem ctlo_roundtrip_witness :
    ∃ t, structParse ctloLayout (List.replicate 900 0) = some t ∧
      structBuildV ctloLayout (pybuild (.vdict t)) = some (List.replicate 900 0) :=
  ctlo_roundtrip (List.replicate 900 0) (by rw [List.length_replicate])
    (fun b hb => by rw [List.eq_of_mem_replicate hb]; omega)

/-! ## Claim C6: raw-copy fields -/

/-- C6: for every raw-copy composite field over the library's (canonical)
sub-constructs, parsing yields a container storing the consumed raw bytes
under `data`; the build step applied to the `_build`-transformed container
writes exactly those stored original raw bytes bit-for-bit when the decoded
`value` has not been changed since parsing, and writes the re-encoding of the
decoded value when `value` was changed. (`_build` itself always collapses the
container to its `value` entry, so the byte-for-byte preservation holds
because re-encoding the unchanged decoded value reproduces the raw bytes
exactly for these sub-constructs.) -/
theorem rawcopy_build_preserves_bytes (sc : SubCon) (data : List Nat) (pos : Nat)
    (hsc : flatSubB sc = true) (hb : ∀ b ∈ data, b < 256)
    (hlen : pos + natSize sc ≤ data.length) :
    ∃ c, SubCon.parse (.rawCopy sc) data pos = some (.vdict c, pos + natSize sc) ∧
      dlookup c (.named "data") = some (.vbytes ((data.drop pos).take (natSize sc))) ∧
      SubCon.build (.rawCopy sc) (pybuild (.vdict c)) =
        some ((data.drop pos).take (natSize sc)) ∧
      (∀ v' : Value, isFlatV v' = true →
        SubCon.build (.rawCopy sc) (pybuild (.vdict (dinsert c (.named "value") v'))) =
          sc.build v') := by
  obtain ⟨v, hparse, hflat, hbuild⟩ := subcon_parse_build sc data pos hsc hb hlen
  refine ⟨[(FName.named "data", Value.vbytes ((data.drop pos).take (natSize sc))),
           (FName.named "value", v),
           (FName.named "offset1", Value.vint pos),
           (FName.named "offset2", Value.vint (pos + natSize sc)),
           (FName.named "length", Value.vint (natSize sc))], ?_, ?_, ?_, ?_⟩
  · simp only [SubCon.parse, hparse, Nat.add_sub_cancel_left, Nat.cast_add,
      add_sub_cancel_left]
  · simp [dlookup]
  · simp [pybuild, pybuildD, keyEqSet, rawCopyKeys, dlookup, pybuild_flat v hflat,
      SubCon.build, hbuild]
  · intro v' hflat'
    simp [dinsert, pybuild, pybuildD, keyEqSet, rawCopyKeys, dlookup,
      pybuild_flat v hflat, pybuild_flat v' hflat', SubCon.build]

/-- C6 witness: a raw-copy `Int32ul` field over the buffer `[7, 0, 0, 0]`. -/
theorem rawcopy_build_preserves_bytes_witness :
    ∃ c, SubCon.parse (.rawCopy .int32ul) [7, 0, 0, 0] 0 =
        some (.vdict c, 0 + natSize .int32ul) ∧
      dlookup c (.named "data") =
        some (.vbytes (([7, 0, 0, 0].drop 0).take (natSize .int32ul))) ∧
      SubCon.build (.rawCopy .int32ul) (pybuild (.vdict c)) =
        some (([7, 0, 0, 0].drop 0).take (natSize .int32ul)) ∧
      (∀ v' : Value, isFlatV v' = true →
        SubCon.build (.rawCopy .int32ul)
            (pybuild (.vdict (dinsert c (.named "value") v'))) =
          SubCon.build .int32ul v') :=
  rawcopy_build_preserves_bytes .int32ul [7, 0, 0, 0] 0 rfl (by decide) (by decide)

/-! ## Claim C9: the forced byte-level diff mode -/

theorem diffAction_true_ne_structural (maxLen : Option Int) (val : Value)
    (ownRaw : List Nat) : diffAction true maxLen val ownRaw ≠ .structuralDiff := by
  unfold diffAction
  simp only [Bool.not_true, Bool.false_and, Bool.false_eq_true, if_false]
  cases maxLen with
  | none => simp
  | some m =>
      dsimp only
      split <;> simp

theorem diffAction_true_hexDiff_iff (maxLen : Option Int) (val : Value)
    (ownRaw : List Nat) :
    diffAction true maxLen val ownRaw = .hexDiff ↔
      ∃ m, maxLen = some m ∧ m ≠ 0 ∧ (∃ bs, val = .vbytes bs) ∧
        (ownRaw.length : Int) > m := by
  unfold diffAction
  simp only [Bool.not_true, Bool.false_and, Bool.false_eq_true, if_false]
  cases maxLen with
  | none => simp
  | some m =>
      cases val <;> simp_all

/-- C9 counterexample: two records differing in an `Int32ul` field, diffed
with byte-level mode forced and no key filter: the field's raw slices differ,
yet the rendered mode is the two-line value diff, not the line-oriented hex
diff the claim requires regardless of the decoded value's type. -/
theorem forced_byte_diff_counterexample :
    diffReport [(.named "f", .int32ul)]
      ((structParse [(.named "f", .int32ul)] [1, 0, 0, 0]).getD [])
      [1, 0, 0, 0] [2, 0, 0, 0] (some 30) true none
      = [(.named "f", .valueDiff)] := by
  decide

/-- C9 amended: for every field whose raw slices differ and that is not
excluded by the key filter, forcing byte-level mode suppresses the structural
diff; the field is rendered as a line-oriented hex diff exactly when its
decoded value is a byte array, `max_len` is set and non-zero, and the raw
slice is longer than `max_len` — and as the two-line value diff otherwise. -/
theorem forced_byte_diff_amended :
    (∀ (L : Layout) (parsedA : List (FName × Value)) (dataA dataB : List Nat)
        (maxLen : Option Int) (keys : Option (List FName)) (key : FName)
        (act : DiffAction),
        (key, act) ∈ diffReport L parsedA dataA dataB maxLen true keys →
        act ≠ .structuralDiff) ∧
    (∀ (maxLen : Option Int) (val : Value) (ownRaw : List Nat),
        (diffAction true maxLen val ownRaw = .hexDiff ↔
          ∃ m, maxLen = some m ∧ m ≠ 0 ∧ (∃ bs, val = .vbytes bs) ∧
            (ownRaw.length : Int) > m) ∧
        (diffAction true maxLen val ownRaw = .hexDiff ∨
          diffAction true maxLen val ownRaw = .valueDiff)) := by
  constructor
  · intro L parsedA dataA dataB maxLen keys key act hmem
    obtain ⟨e, he, hf⟩ := List.mem_filterMap.mp hmem
    obtain ⟨k0, off, sz⟩ := e
    dsimp only at hf
    split at hf
    · exact absurd hf (by simp)
    · split at hf
      · rename_i pv hpv
        injection hf with hf1
        injection hf1 with hkey hact
        rw [← hact]
        exact diffAction_true_ne_structural _ _ _
      · exact absurd hf (by simp)
  · intro maxLen val ownRaw
    refine ⟨diffAction_true_hexDiff_iff maxLen val ownRaw, ?_⟩
    have hne := diffAction_true_ne_structural maxLen val ownRaw
    cases h : diffAction true maxLen val ownRaw with
    | structuralDiff => exact absurd h hne
    | hexDiff => exact Or.inl rfl
    | valueDiff => exact Or.inr rfl

/-- C9 amended witness: the counterexample record pair renders the value
diff (never the structural diff), and a long byte-array field under a small
`max_len` renders the hex diff. -/
theorem forced_byte_diff_amended_witness :
    DiffAction.valueDiff ≠ DiffAction.structuralDiff ∧
    diffAction true (some 1) (.vbytes [9, 9]) [9, 9, 9] = .hexDiff :=
  ⟨forced_byte_diff_amended.1 [(.named "f", .int32ul)]
      ((structParse [(.named "f", .int32ul)] [1, 0, 0, 0]).getD [])
      [1, 0, 0, 0] [2, 0, 0, 0] (some 30) none (.named "f") .valueDiff (by decide),
    (forced_byte_diff_amended.2 (some 1) (.vbytes [9, 9]) [9, 9, 9]).1.mpr
      ⟨1, rfl, by decide, ⟨[9, 9], rfl⟩, by decide⟩⟩

end D2ro
